import Mathlib

/-!
Verification of the Microsoft SQL connector plugin (binding resolution,
parameterized execution, connection lifecycle, schema introspection).

The definitions below are a shallow embedding of `src/src/index.ts` (the
legacy `BasePlugin` variant) and `src/unnamed/part_000` (the pooled
`DatabasePluginPooled` variant).  External collaborators that are not part
of this repository (the shared-backend template scanner and renderer, the
lodash `isEmpty` predicate, the mssql driver) are modelled at their
interface boundary, each with a doc comment saying what is modelled.
Parameter values are kept abstract in a type `α`; record sets are kept
abstract in a type `σ`.
-/

namespace MsSql

/-- Display name of the plugin, the `pluginName` field in the source. -/
def pluginName : String := "Microsoft SQL"

/-- Modelled from the spec: a query template is a string containing zero or
more embedded expressions (spec section 3, "Query Template").  We represent
the template by its unique decomposition into literal chunks and embedded
expression occurrences, which is the level at which the external scanner and
renderer operate. -/
inductive Segment where
  | lit (s : String)
  | expr (e : String)
deriving DecidableEq, Repr

/-- A query template: an interleaving of literal chunks and embedded
expression occurrences. -/
abbrev Template := List Segment

/-- Modelled from the spec: (section 4.1, Template Scanner)
`extractMustacheStrings` produces the ordered sequence of embedded
expression substrings, duplicates preserved, in left-to-right occurrence
order, and does not evaluate them. -/
def extractMustacheStrings (t : Template) : List String :=
  t.filterMap fun s =>
    match s with
    | .lit _ => none
    | .expr e => some e

/-- A JavaScript object used as a string-keyed dictionary, seen through
point lookups: assigning key `k` overwrites any previous value at `k`. -/
def mapSet (m : String → Option String) (k v : String) : String → Option String :=
  fun x => if x = k then some v else m x

/-- Modelled from the spec: (section 4.2 step 5) `renderValue` substitutes
each embedded expression occurrence by the value held in the binding
resolution map for its exact expression text; literal chunks pass through
unchanged; an expression text absent from the map renders as the empty
string. -/
def renderValue (t : Template) (m : String → Option String) : String :=
  String.join (t.map fun s =>
    match s with
    | .lit l => l
    | .expr e => (m e).getD "")

/-- The runtime context, restricted to the one field this plugin mutates:
the prepared statement context, an ordered list of evaluated parameter
values. -/
structure RuntimeContext (α : Type) where
  preparedStatementContext : List α
deriving Repr

/-- The mutable state of the binding loop in
`resolveActionConfigurationProperty`: the `bindingResolution` object mapping
expression text to its assigned placeholder, the context parameter list
being pushed to, and the `bindingCount` counter. -/
structure BindLoopState (α : Type) where
  bindingResolution : String → Option String
  preparedStatementContext : List α
  bindingCount : Nat

/-- The body of the loop
`for (const toEval of extractMustacheStrings(propertyToResolve))` in
`resolveActionConfigurationProperty`: each occurrence assigns
`bindingResolution[toEval] = "@PARAM_" + bindingCount++` and pushes the
evaluated value `bindingResolutions[toEval]` onto the prepared statement
context.  `ev` is the evaluation map returned by the external
`resolveAllBindings` collaborator (spec section 4.2 step 1: a mapping from
each distinct expression substring to its evaluated value). -/
def bindLoop (ev : String → α) : List String → BindLoopState α → BindLoopState α
  | [], st => st
  | toEval :: rest, st =>
      bindLoop ev rest
        { bindingResolution := mapSet st.bindingResolution toEval ("@PARAM_" ++ toString st.bindingCount)
          preparedStatementContext := st.preparedStatementContext ++ [ev toEval]
          bindingCount := st.bindingCount + 1 }

/-- The initial binding-loop state of a resolution call: empty resolution
object, prepared statement context reset to the empty list, counter at 1. -/
def initialBindState (α : Type) : BindLoopState α :=
  { bindingResolution := fun _ => none
    preparedStatementContext := []
    bindingCount := 1 }

/-- The prepared branch of `resolveActionConfigurationProperty`: reset the
prepared statement context to empty, start the counter at 1, run the
binding loop over the extracted occurrences, and render the template
through the final binding resolution map.  Returns the rendered SQL string
and the updated runtime context. -/
def resolvePreparedBody (ev : String → α) (propertyToResolve : Template)
    (_ctx : RuntimeContext α) : String × RuntimeContext α :=
  let st := bindLoop ev (extractMustacheStrings propertyToResolve) (initialBindState α)
  (renderValue propertyToResolve st.bindingResolution,
   { preparedStatementContext := st.preparedStatementContext })

/-- Action configuration: the query body template and the flag selecting
parameter binding.  `body` is optional, mirroring
`actionConfiguration[resolutionContext.property] ?? ""`. -/
structure ActionConfiguration where
  usePreparedSql : Bool
  body : Option Template

/-- The resolution context handed to `resolveActionConfigurationProperty`. -/
structure ResolutionContext (α : Type) where
  actionConfiguration : ActionConfiguration
  property : String
  context : RuntimeContext α

/-- Shallow embedding of `resolveActionConfigurationProperty`.  When the
action is not marked `usePreparedSql`, or the property being resolved is
not the query body, it delegates unchanged to the superclass resolution
path, modelled as the abstract function `superResolve`.  Otherwise it runs
the prepared branch on the body template (missing body defaults to the
empty template).  `ev` models the output of the external
`resolveAllBindings` collaborator for this template and context. -/
def resolveActionConfigurationProperty
    (superResolve : ResolutionContext α → String × RuntimeContext α)
    (ev : String → α) (rc : ResolutionContext α) : String × RuntimeContext α :=
  if rc.actionConfiguration.usePreparedSql = false ∨ rc.property ≠ "body" then
    superResolve rc
  else
    resolvePreparedBody ev (rc.actionConfiguration.body.getD []) rc.context

/-- The placeholder assignments the binding loop performs, in order: the
occurrence at position `i` of the occurrence list (0-based) is assigned
placeholder text `"@PARAM_" ++ toString (n + i)` when the counter starts at
`n`. -/
def placeholderAssignmentsFrom (n : Nat) : List String → List (String × String)
  | [] => []
  | e :: rest => (e, "@PARAM_" ++ toString n) :: placeholderAssignmentsFrom (n + 1) rest

/-- The last placeholder assigned to expression text `k` by the binding
loop when run over `occs` with the counter starting at `n`: the placeholder
of the highest-numbered occurrence of `k`, or `none` when `k` does not
occur. -/
def lastAssigned (n : Nat) : List String → String → Option String
  | [], _ => none
  | e :: rest, k =>
      match lastAssigned (n + 1) rest k with
      | some v => some v
      | none => if k = e then some ("@PARAM_" ++ toString n) else none

/-- Observable activity performed against (or to obtain) a connection
during one operation, in order: pool acquisition, request creation, a
named-parameter binding, a query execution, and connection release (the
flag records whether the underlying close succeeded). -/
inductive ConnEvent (α : Type) where
  | acquire
  | request
  | input (name : String) (value : α)
  | query (sql : String)
  | release (ok : Bool)
deriving DecidableEq, Repr

/-- The `ExecutionOutput` value returned to the host: a fresh output has no
record set; a successful query stores the normalized record set. -/
structure ExecutionOutput (σ : Type) where
  output : Option σ
deriving DecidableEq, Repr

/-- The loop `for (const param of context.preparedStatementContext)
request = request.input("PARAM_" + paramCount++, param)`: the ordered
binding events it issues against the request, with the counter starting at
`n` (the source starts it at 1). -/
def bindInputs : List α → Nat → List (ConnEvent α)
  | [], _ => []
  | p :: rest, n => .input ("PARAM_" ++ toString n) p :: bindInputs rest (n + 1)

/-- Modelled from the documented behaviour of the external lodash `isEmpty`
collaborator on strings and missing values: `isEmpty` is true exactly for a
missing body or a string of length zero (a whitespace-only string has
positive length and is not empty for lodash).  The pooled variant guards
with `!query || isEmpty(query)`, the legacy variant with `isEmpty(query)`;
both have this extension on an optional string body. -/
def bodyIsEmpty : Option String → Bool
  | none => true
  | some q => q.isEmpty

/-- Shallow embedding of `executePooled` from the pooled variant
(`src/unnamed/part_000`): the connection is a parameter (acquired and
released by the pooled base class outside this repository), `db` models the
record set or failure the driver returns for a query text, `normalize`
models the external `normalizeTableColumnNames` collaborator.  Returns the
result (`IntegrationError` messages as `.error`) together with the ordered
activity performed on the connection. -/
def executePooled (normalize : σ → σ) (db : String → Except String σ)
    (body : Option String) (psc : List α) :
    Except String (ExecutionOutput σ) × List (ConnEvent α) :=
  match body with
  | none => (.ok { output := none }, [])
  | some q =>
    if q.isEmpty then (.ok { output := none }, [])
    else
      match db q with
      | .ok rs =>
          (.ok { output := some (normalize rs) },
           .request :: bindInputs psc 1 ++ [.query q])
      | .error m =>
          (.error (pluginName ++ " query failed, " ++ m),
           .request :: bindInputs psc 1 ++ [.query q])

/-- Shallow embedding of `execute` from the legacy variant
(`src/src/index.ts`): the connection is created first (its failure message,
already wrapped by `createConnection`, is re-wrapped by the catch block),
the empty-body check runs after acquisition, and the `finally` block
releases the connection on every exit path on which it was acquired.
Closing is modelled as a release event whose failure does not alter the
result, per the release contract of spec section 4.3 (release must not
raise and is best-effort cleanup). -/
def execute (normalize : σ → σ) (connect : Except String Unit)
    (db : String → Except String σ) (body : Option String) (psc : List α)
    (releaseOk : Bool) : Except String (ExecutionOutput σ) × List (ConnEvent α) :=
  match connect with
  | .error m => (.error (pluginName ++ " query failed, " ++ m), [])
  | .ok _ =>
    match body with
    | none => (.ok { output := none }, [.acquire, .release releaseOk])
    | some q =>
      if q.isEmpty then (.ok { output := none }, [.acquire, .release releaseOk])
      else
        match db q with
        | .ok rs =>
            (.ok { output := some (normalize rs) },
             .acquire :: .request :: bindInputs psc 1 ++ [.query q, .release releaseOk])
        | .error m =>
            (.error (pluginName ++ " query failed, " ++ m),
             .acquire :: .request :: bindInputs psc 1 ++ [.query q, .release releaseOk])

/-- The `endpoint` block of the datasource configuration. -/
structure EndpointConf where
  host : Option String
  port : Option Nat
deriving DecidableEq, Repr

/-- The `custom.databaseName` leaf of the authentication block; its `value`
holds the database name. -/
structure DatabaseNameConf where
  value : Option String
deriving DecidableEq, Repr

/-- The `custom` block of the authentication configuration. -/
structure CustomAuth where
  databaseName : Option DatabaseNameConf
deriving DecidableEq, Repr

/-- The `authentication` block of the datasource configuration. -/
structure AuthConf where
  username : Option String
  password : Option String
  custom : Option CustomAuth
deriving DecidableEq, Repr

/-- The `connection` block of the datasource configuration. -/
structure ConnectionConf where
  useSsl : Bool
deriving DecidableEq, Repr

/-- The datasource configuration consumed by `createConnection`. -/
structure MsSqlDatasourceConfiguration where
  endpoint : Option EndpointConf
  authentication : Option AuthConf
  connection : Option ConnectionConf
deriving DecidableEq, Repr

/-- The connection descriptor `sqlConfig` built by `createConnection` once
validation passes (the pooled variant; `server` is `endpoint.host ?? ""`).
The numeric coercion of the port is outside the claims and the raw
configured port is kept. -/
structure SqlConfig where
  user : Option String
  password : Option String
  database : String
  server : String
  port : Option Nat
  requestTimeout : Nat
  trustServerCertificate : Bool
  encrypt : Bool
deriving DecidableEq, Repr

/-- Outcome of `createConnection` up to the point where the network is
touched: either a configuration error thrown before any connection
attempt, or the connection attempt itself carrying the descriptor handed
to the driver. -/
inductive ConnectionAttempt where
  | configError (msg : String)
  | connectAttempt (cfg : SqlConfig)
deriving DecidableEq, Repr

/-- The truthiness test `auth.custom?.databaseName?.value` from
`createConnection`: the database name is available exactly when the whole
optional chain is present and the value is a non-empty string (the empty
string is falsy in JavaScript). -/
def databaseNameValue (auth : AuthConf) : Option String :=
  match auth.custom with
  | none => none
  | some c =>
    match c.databaseName with
    | none => none
    | some d =>
      match d.value with
      | none => none
      | some v => if v = "" then none else some v

/-- Shallow embedding of `createConnection` up to the driver call: validate
endpoint, authentication and database name in that order, failing fast with
a distinct `IntegrationError` message for the first violation, and
otherwise build the `sqlConfig` descriptor and reach the connection
attempt. -/
def createConnection (dc : MsSqlDatasourceConfiguration)
    (connectionTimeoutMillis : Nat) : ConnectionAttempt :=
  match dc.endpoint with
  | none => .configError ("Endpoint not specified for " ++ pluginName ++ " step")
  | some endpoint =>
    match dc.authentication with
    | none => .configError ("Authentication not specified for " ++ pluginName ++ " step")
    | some auth =>
      match databaseNameValue auth with
      | none => .configError ("Database not specified for " ++ pluginName ++ " step")
      | some dbName =>
        .connectAttempt
          { user := auth.username
            password := auth.password
            database := dbName
            server := (endpoint.host).getD ""
            port := endpoint.port
            requestTimeout := connectionTimeoutMillis
            trustServerCertificate := true
            encrypt := match dc.connection with
              | some c => c.useSsl
              | none => false }

/-- A column of the schema model: name and declared data type
(`new Column(record.column_name, record.data_type)`). -/
structure Column where
  name : String
  dataType : String
deriving DecidableEq, Repr

/-- The table type tag; the introspector always uses `TableType.TABLE`. -/
inductive TableType where
  | table
deriving DecidableEq, Repr

/-- A table of the schema model: name, type tag, ordered column list. -/
structure Table where
  name : String
  ttype : TableType
  columns : List Column
deriving DecidableEq, Repr

/-- One row of the flat catalog result set consumed by `metadata`. -/
structure CatalogRow where
  table_name : String
  column_name : String
  data_type : String
deriving DecidableEq, Repr

/-- A JavaScript object used as a table map, kept as its ordered own
properties (keys unique, in insertion order of first assignment).  The
prototype chain is not modelled. -/
abbrev TablesMap := List (String × Table)

/-- Property lookup `tablesMap[k]` (undefined for an absent key). -/
def jsGet : TablesMap → String → Option Table
  | [], _ => none
  | p :: rest, k => if p.1 = k then some p.2 else jsGet rest k

/-- Whether the object has an own property named `k`. -/
def jsMem : TablesMap → String → Bool
  | [], _ => false
  | p :: rest, k => if p.1 = k then true else jsMem rest k

/-- Property assignment `tablesMap[k] = v`: overwrites in place when the
key exists, otherwise appends the key as a new own property. -/
def jsSet (m : TablesMap) (k : String) (v : Table) : TablesMap :=
  if jsMem m k then
    m.map fun p => if p.1 = k then (k, v) else p
  else
    m ++ [(k, v)]

/-- Numeric value of a decimal digit character. -/
def digitVal (c : Char) : Nat := c.toNat - 48

/-- Whether a character is a decimal digit. -/
def isDigitChar (c : Char) : Bool := 48 ≤ c.toNat && c.toNat ≤ 57

/-- Value of a list of decimal digit characters, most significant first. -/
def decimalValue (cs : List Char) : Nat :=
  cs.foldl (fun acc c => acc * 10 + digitVal c) 0

/-- ECMAScript array-index keys: a string property key is an array index
exactly when it is the canonical decimal representation (the single digit
0, or a digit string with no leading zero) of an integer below 2^32 - 1.
Such keys are enumerated before all other string keys, in ascending
numeric order. -/
def isArrayIndexKey (s : String) : Option Nat :=
  match s.data with
  | [] => none
  | c :: cs =>
    if c = '0' then
      if cs = [] then some 0 else none
    else if (c :: cs).all isDigitChar then
      if decimalValue (c :: cs) < 4294967295 then some (decimalValue (c :: cs))
      else none
    else none

/-- Insertion step of the ascending sort on array-index keys. -/
def insertByIdx (p : Nat × Table) : List (Nat × Table) → List (Nat × Table)
  | [] => [p]
  | q :: rest => if p.1 < q.1 then p :: q :: rest else q :: insertByIdx p rest

/-- Ascending insertion sort on array-index keys. -/
def sortByIdx : List (Nat × Table) → List (Nat × Table)
  | [] => []
  | p :: rest => insertByIdx p (sortByIdx rest)

/-- The pairs of `m` whose key is an array-index key, tagged with the
numeric index. -/
def arrayIndexPairs (m : TablesMap) : List (Nat × Table) :=
  m.filterMap fun p =>
    match isArrayIndexKey p.1 with
    | some n => some (n, p.2)
    | none => none

/-- Embedding of `Object.values(tablesMap)`: per the ECMAScript own-property order,
values at array-index keys come first in ascending numeric order, followed
by the values at the remaining string keys in insertion order. -/
def jsValues (m : TablesMap) : List Table :=
  (sortByIdx (arrayIndexPairs m)).map (fun p => p.2) ++
    ((m.filter fun p => (isArrayIndexKey p.1).isNone).map fun p => p.2)

/-- The row-folding loop of `metadata`: a row whose table is already in the
map pushes one column onto that table; the first row of a table creates the
table (type tag `TABLE`) with that single column and assigns it into the
map. -/
def foldCatalogRows : List CatalogRow → TablesMap → TablesMap
  | [], m => m
  | r :: rest, m =>
    match jsGet m r.table_name with
    | some t =>
        foldCatalogRows rest
          (jsSet m r.table_name
            { t with columns := t.columns ++ [{ name := r.column_name, dataType := r.data_type }] })
    | none =>
        foldCatalogRows rest
          (jsSet m r.table_name
            { name := r.table_name
              ttype := .table
              columns := [{ name := r.column_name, dataType := r.data_type }] })

/-- The table list `metadata` returns inside `dbSchema`: fold the catalog
rows into the table map starting from the empty object, then take
`Object.values`. -/
def metadataTables (rows : List CatalogRow) : List Table :=
  jsValues (foldCatalogRows rows [])

/-- The order in which table names are first encountered in the catalog
row stream. -/
def firstEncounterOrder (rows : List CatalogRow) : List String :=
  rows.foldl (fun acc r => if r.table_name ∈ acc then acc else acc ++ [r.table_name]) []

/-- The columns the row stream contributes to table `tn`, in stream
order. -/
def columnsOf (rows : List CatalogRow) (tn : String) : List Column :=
  (rows.filter fun r => r.table_name = tn).map
    fun r => { name := r.column_name, dataType := r.data_type }

/-- The fixed catalog query text run by `metadata`. -/
def catalogQuery : String :=
  "select table_name, column_name, data_type from information_schema.columns where table_schema != \x27sys\x27 order by ordinal_position"

/-- The fixed reachability probe run by `test`. -/
def testQuery : String := "select name from sys.databases"

/-- Shallow embedding of the pooled `metadata` operation: acquire a
connection (`createConnection`; a failure there propagates as is and
happens before the try block), run the catalog query, fold the rows, and
in the `finally` block release the connection with any release failure
swallowed by `.catch`.  `connect` models the driver outcome of the
connection attempt, `db` the catalog query outcome, `releaseOk` whether
the release itself succeeded. -/
def metadataOp (connect : Except String Unit)
    (db : Except String (List CatalogRow)) (releaseOk : Bool) :
    Except String (List Table) × List (ConnEvent Unit) :=
  match connect with
  | .error m => (.error m, [])
  | .ok _ =>
    match db with
    | .ok rows =>
        (.ok (metadataTables rows),
         [.acquire, .query catalogQuery, .release releaseOk])
    | .error m =>
        (.error ("Failed to connect to " ++ pluginName ++ ", " ++ m),
         [.acquire, .query catalogQuery, .release releaseOk])

/-- Shallow embedding of the pooled `test` operation: acquire a connection,
run the probe query, wrap a query failure, and release in the `finally`
block with any release failure swallowed by `.catch`. -/
def testOp (connect : Except String Unit) (db : Except String Unit)
    (releaseOk : Bool) : Except String Unit × List (ConnEvent Unit) :=
  match connect with
  | .error m => (.error m, [])
  | .ok _ =>
    match db with
    | .ok _ =>
        (.ok (), [.acquire, .query testQuery, .release releaseOk])
    | .error m =>
        (.error ("Test " ++ pluginName ++ " connection failed, " ++ m),
         [.acquire, .query testQuery, .release releaseOk])

/-- A resolution context with `usePreparedSql` set, property `body`, body
template `t`, and an arbitrary prior prepared statement context. -/
def preparedResolutionContext (t : Template) (psc0 : List α) : ResolutionContext α :=
  { actionConfiguration := { usePreparedSql := true, body := some t }
    property := "body"
    context := { preparedStatementContext := psc0 } }

/-- A template in which the same expression text `x` occurs twice,
separated by a literal space. -/
def dupTemplate : Template := [Segment.expr "x", Segment.lit " ", Segment.expr "x"]

/-- A driver stub that answers every query with one record. -/
def dbOneRow : String → Except String (List String) := fun _ => Except.ok ["r"]

/-- The catalog rows of the spec example: two Users columns then one
Orders column. -/
def usersOrdersRows : List CatalogRow :=
  [{ table_name := "Users", column_name := "id", data_type := "int" },
   { table_name := "Users", column_name := "name", data_type := "varchar" },
   { table_name := "Orders", column_name := "id", data_type := "int" }]

/-- Catalog rows in which the second table first encountered is named "0",
an array-index property key. -/
def numericNameRows : List CatalogRow :=
  [{ table_name := "Users", column_name := "id", data_type := "int" },
   { table_name := "0", column_name := "c", data_type := "int" }]

/-! Lemmas about the binding loop. -/

theorem bindLoop_psc (ev : String → α) (occs : List String) (st : BindLoopState α) :
    (bindLoop ev occs st).preparedStatementContext =
      st.preparedStatementContext ++ occs.map ev := by
  induction occs generalizing st with
  | nil => simp [bindLoop]
  | cons e rest ih => simp [bindLoop, ih]

theorem bindLoop_count (ev : String → α) (occs : List String) (st : BindLoopState α) :
    (bindLoop ev occs st).bindingCount = st.bindingCount + occs.length := by
  induction occs generalizing st with
  | nil => simp [bindLoop]
  | cons e rest ih =>
    simp only [bindLoop, ih, List.length_cons]
    omega

theorem bindLoop_map (ev : String → α) (occs : List String) (st : BindLoopState α)
    (k : String) :
    (bindLoop ev occs st).bindingResolution k =
      match lastAssigned st.bindingCount occs k with
      | some v => some v
      | none => st.bindingResolution k := by
  induction occs generalizing st with
  | nil => simp [bindLoop, lastAssigned]
  | cons e rest ih =>
    simp only [bindLoop, lastAssigned]
    rw [ih]
    cases h : lastAssigned (st.bindingCount + 1) rest k with
    | some v => simp
    | none =>
      by_cases hk : k = e <;> simp [hk, mapSet]

theorem bindLoop_fold (ev : String → α) (occs : List String) (st : BindLoopState α) :
    (bindLoop ev occs st).bindingResolution =
      (placeholderAssignmentsFrom st.bindingCount occs).foldl
        (fun m p => mapSet m p.1 p.2) st.bindingResolution := by
  induction occs generalizing st with
  | nil => simp [bindLoop, placeholderAssignmentsFrom]
  | cons e rest ih =>
    simp only [bindLoop, placeholderAssignmentsFrom, List.foldl_cons]
    exact ih _

theorem placeholderAssignmentsFrom_length (n : Nat) (occs : List String) :
    (placeholderAssignmentsFrom n occs).length = occs.length := by
  induction occs generalizing n with
  | nil => simp [placeholderAssignmentsFrom]
  | cons e rest ih => simp [placeholderAssignmentsFrom, ih]

theorem placeholderAssignmentsFrom_get (n : Nat) (occs : List String) (i : Nat) :
    (placeholderAssignmentsFrom n occs).get? i =
      (occs.get? i).map fun e => (e, "@PARAM_" ++ toString (n + i)) := by
  induction occs generalizing n i with
  | nil => simp [placeholderAssignmentsFrom]
  | cons e rest ih =>
    cases i with
    | zero => simp [placeholderAssignmentsFrom]
    | succ j =>
      have harith : n + 1 + j = n + (j + 1) := by omega
      have hih := ih (n + 1) j
      rw [harith] at hih
      simpa [placeholderAssignmentsFrom] using hih

theorem bindInputs_length (psc : List α) (n : Nat) :
    (bindInputs psc n).length = psc.length := by
  induction psc generalizing n with
  | nil => simp [bindInputs]
  | cons p rest ih => simp [bindInputs, ih]

theorem bindInputs_get (psc : List α) (n i : Nat) :
    (bindInputs psc n).get? i =
      (psc.get? i).map fun v => ConnEvent.input ("PARAM_" ++ toString (n + i)) v := by
  induction psc generalizing n i with
  | nil => simp [bindInputs]
  | cons p rest ih =>
    cases i with
    | zero => simp [bindInputs]
    | succ j =>
      have harith : n + 1 + j = n + (j + 1) := by omega
      have hih := ih (n + 1) j
      rw [harith] at hih
      simpa [bindInputs] using hih

theorem resolvePreparedBody_psc (ev : String → α) (t : Template) (ctx : RuntimeContext α) :
    (resolvePreparedBody ev t ctx).2.preparedStatementContext =
      (extractMustacheStrings t).map ev := by
  simp [resolvePreparedBody, bindLoop_psc, initialBindState]

theorem resolvePreparedBody_sql (ev : String → α) (t : Template) (ctx : RuntimeContext α) :
    (resolvePreparedBody ev t ctx).1 =
      renderValue t (lastAssigned 1 (extractMustacheStrings t)) := by
  simp only [resolvePreparedBody]
  have h : (bindLoop ev (extractMustacheStrings t)
      (initialBindState α)).bindingResolution =
      lastAssigned 1 (extractMustacheStrings t) := by
    funext k
    rw [bindLoop_map]
    simp only [initialBindState]
    cases lastAssigned 1 (extractMustacheStrings t) k <;> rfl
  rw [h]

/-! Lemmas about the table map and the metadata fold. -/

theorem jsMem_eq_isSome (m : TablesMap) (k : String) :
    jsMem m k = (jsGet m k).isSome := by
  induction m with
  | nil => rfl
  | cons p rest ih => by_cases hp : p.1 = k <;> simp [jsMem, jsGet, hp, ih]

theorem jsGet_map_overwrite (m : TablesMap) (k : String) (v : Table) (x : String) :
    jsGet (m.map fun p => if p.1 = k then (k, v) else p) x =
      if x = k then (if jsMem m k then some v else none) else jsGet m x := by
  induction m with
  | nil => simp [jsGet, jsMem]
  | cons p rest ih =>
    by_cases hp : p.1 = k
    · by_cases hx : x = k
      · subst hx; simp [jsGet, jsMem, hp]
      · simp [jsGet, jsMem, hp, hx, Ne.symm hx, ih]
    · by_cases hx : x = k
      · subst hx
        have hpx : ¬ p.1 = x := hp
        simp [jsGet, jsMem, hp, hpx, ih]
      · by_cases hpx : p.1 = x <;> simp [jsGet, jsMem, hp, hx, hpx, ih]

theorem jsGet_append_single (m : TablesMap) (k : String) (v : Table) (x : String) :
    jsGet (m ++ [(k, v)]) x =
      match jsGet m x with
      | some t => some t
      | none => if k = x then some v else none := by
  induction m with
  | nil => simp [jsGet]
  | cons p rest ih => by_cases hp : p.1 = x <;> simp [jsGet, hp, ih]

theorem jsGet_jsSet (m : TablesMap) (k : String) (v : Table) (x : String) :
    jsGet (jsSet m k v) x = if x = k then some v else jsGet m x := by
  unfold jsSet
  by_cases hmem : jsMem m k
  · simp [hmem, jsGet_map_overwrite]
  · have hget : jsGet m k = none := by
      cases h : jsGet m k with
      | none => rfl
      | some t =>
        exfalso
        apply hmem
        rw [jsMem_eq_isSome, h]
        rfl
    rw [if_neg hmem, jsGet_append_single]
    by_cases hx : x = k
    · subst hx; simp [hget]
    · have hkx : ¬ k = x := fun hh => hx hh.symm
      cases h : jsGet m x <;> simp [h, hx, hkx]

theorem columnsOf_cons (r : CatalogRow) (rest : List CatalogRow) (tn : String) :
    columnsOf (r :: rest) tn =
      (if r.table_name = tn then [{ name := r.column_name, dataType := r.data_type }] else [])
        ++ columnsOf rest tn := by
  by_cases h : r.table_name = tn <;> simp [columnsOf, List.filter_cons, h]

theorem foldCatalogRows_get (rows : List CatalogRow) (m : TablesMap) (tn : String) :
    jsGet (foldCatalogRows rows m) tn =
      match jsGet m tn with
      | some t => some { t with columns := t.columns ++ columnsOf rows tn }
      | none =>
        if rows.any fun r => r.table_name = tn then
          some { name := tn, ttype := TableType.table, columns := columnsOf rows tn }
        else none := by
  induction rows generalizing m with
  | nil =>
    cases h : jsGet m tn <;> simp [foldCatalogRows, columnsOf, h]
  | cons r rest ih =>
    simp only [foldCatalogRows]
    cases hR : jsGet m r.table_name with
    | some t0 =>
      rw [ih]
      by_cases htn : tn = r.table_name
      · subst htn
        rw [jsGet_jsSet]
        simp only [if_pos rfl, hR, columnsOf_cons, List.any_cons]
        simp [List.append_assoc]
      · have hrt : ¬ r.table_name = tn := fun hh => htn hh.symm
        rw [jsGet_jsSet, if_neg htn]
        cases h2 : jsGet m tn <;>
          simp [columnsOf_cons, List.any_cons, hrt, h2]
    | none =>
      rw [ih]
      by_cases htn : tn = r.table_name
      · subst htn
        rw [jsGet_jsSet]
        simp only [if_pos rfl, hR, columnsOf_cons, List.any_cons]
        simp
      · have hrt : ¬ r.table_name = tn := fun hh => htn hh.symm
        rw [jsGet_jsSet, if_neg htn]
        cases h2 : jsGet m tn <;>
          simp [columnsOf_cons, List.any_cons, hrt, h2]

theorem map_overwrite_keys (m : TablesMap) (k : String) (v : Table) :
    (m.map fun p => if p.1 = k then (k, v) else p).map Prod.fst = m.map Prod.fst := by
  induction m with
  | nil => rfl
  | cons p rest ih => by_cases hp : p.1 = k <;> simp [hp, ih]

theorem jsSet_keys (m : TablesMap) (k : String) (v : Table) :
    (jsSet m k v).map Prod.fst =
      if jsMem m k then m.map Prod.fst else m.map Prod.fst ++ [k] := by
  unfold jsSet
  by_cases h : jsMem m k
  · rw [if_pos h, if_pos h]
    exact map_overwrite_keys m k v
  · rw [if_neg h, if_neg h]
    simp

theorem mem_keys_iff_jsMem (m : TablesMap) (k : String) :
    k ∈ m.map Prod.fst ↔ jsMem m k = true := by
  induction m with
  | nil => simp [jsMem]
  | cons p rest ih =>
    by_cases hp : p.1 = k
    · simp [jsMem, hp]
    · have hkp : ¬ k = p.1 := fun hh => hp hh.symm
      simp [jsMem, hp, hkp, ih]

theorem foldCatalogRows_keys (rows : List CatalogRow) (m : TablesMap) :
    (foldCatalogRows rows m).map Prod.fst =
      rows.foldl (fun ks r => if r.table_name ∈ ks then ks else ks ++ [r.table_name])
        (m.map Prod.fst) := by
  induction rows generalizing m with
  | nil => rfl
  | cons r rest ih =>
    simp only [foldCatalogRows, List.foldl_cons]
    cases hR : jsGet m r.table_name with
    | some t0 =>
      have hmem : jsMem m r.table_name = true := by
        rw [jsMem_eq_isSome, hR]; rfl
      have hks : r.table_name ∈ m.map Prod.fst := (mem_keys_iff_jsMem m _).mpr hmem
      rw [ih, jsSet_keys]
      simp [hmem, hks]
    | none =>
      have hmem : jsMem m r.table_name = false := by
        rw [jsMem_eq_isSome, hR]; rfl
      have hks : r.table_name ∉ m.map Prod.fst := by
        rw [mem_keys_iff_jsMem, hmem]; simp
      rw [ih, jsSet_keys]
      simp [hmem, hks]

theorem jsGet_mem (m : TablesMap) (k : String) (t : Table)
    (h : jsGet m k = some t) : (k, t) ∈ m := by
  induction m with
  | nil => simp [jsGet] at h
  | cons p rest ih =>
    by_cases hp : p.1 = k
    · simp only [jsGet, if_pos hp] at h
      have ht : p.2 = t := Option.some.inj h
      have hpk : p = (k, t) := by
        obtain ⟨p1, p2⟩ := p
        simp_all
      rw [← hpk]
      exact List.mem_cons_self _ _
    · simp only [jsGet, if_neg hp] at h
      exact List.mem_cons_of_mem _ (ih h)

theorem mem_jsSet (m : TablesMap) (k : String) (v : Table) (p : String × Table)
    (hp : p ∈ jsSet m k v) : p = (k, v) ∨ p ∈ m := by
  unfold jsSet at hp
  by_cases h : jsMem m k
  · rw [if_pos h] at hp
    rcases List.mem_map.mp hp with ⟨q, hq, hfq⟩
    by_cases hqk : q.1 = k
    · left; rw [← hfq]; simp [hqk]
    · right; rw [← hfq]; simpa [hqk] using hq
  · rw [if_neg h] at hp
    rcases List.mem_append.mp hp with h1 | h2
    · exact Or.inr h1
    · left; simpa using h2

theorem foldCatalogRows_names (rows : List CatalogRow) (m : TablesMap)
    (h : ∀ p ∈ m, Table.name p.2 = p.1) :
    ∀ p ∈ foldCatalogRows rows m, Table.name p.2 = p.1 := by
  induction rows generalizing m with
  | nil => simpa [foldCatalogRows] using h
  | cons r rest ih =>
    simp only [foldCatalogRows]
    cases hR : jsGet m r.table_name with
    | some t0 =>
      apply ih
      intro p hp
      rcases mem_jsSet _ _ _ _ hp with h1 | h2
      · subst h1
        have : Table.name t0 = r.table_name := h _ (jsGet_mem m _ _ hR)
        simpa using this
      · exact h _ h2
    | none =>
      apply ih
      intro p hp
      rcases mem_jsSet _ _ _ _ hp with h1 | h2
      · subst h1; rfl
      · exact h _ h2

theorem mem_foldl_encounter (rows : List CatalogRow) (ks0 : List String) (k : String)
    (h : k ∈ rows.foldl
      (fun ks r => if r.table_name ∈ ks then ks else ks ++ [r.table_name]) ks0) :
    k ∈ ks0 ∨ ∃ r ∈ rows, r.table_name = k := by
  induction rows generalizing ks0 with
  | nil => exact Or.inl (by simpa using h)
  | cons r rest ih =>
    simp only [List.foldl_cons] at h
    rcases ih _ h with h1 | h2
    · by_cases hmem : r.table_name ∈ ks0
      · rw [if_pos hmem] at h1
        exact Or.inl h1
      · rw [if_neg hmem] at h1
        rcases List.mem_append.mp h1 with ha | hb
        · exact Or.inl ha
        · right
          have hk : k = r.table_name := by simpa using hb
          exact ⟨r, by simp, hk.symm⟩
    · right
      obtain ⟨r2, hr2, hk2⟩ := h2
      exact ⟨r2, by simp [hr2], hk2⟩

theorem metadataTables_no_numeric_keys (rows : List CatalogRow)
    (h : ∀ r ∈ rows, isArrayIndexKey r.table_name = none) :
    (metadataTables rows).map Table.name = firstEncounterOrder rows := by
  have hkeys : (foldCatalogRows rows []).map Prod.fst = firstEncounterOrder rows := by
    simpa using foldCatalogRows_keys rows []
  have hknone : ∀ p ∈ foldCatalogRows rows [], isArrayIndexKey p.1 = none := by
    intro p hp
    have hkmem : p.1 ∈ (foldCatalogRows rows []).map Prod.fst :=
      List.mem_map.mpr ⟨p, hp, rfl⟩
    rw [hkeys] at hkmem
    rcases mem_foldl_encounter rows [] p.1 (by simpa [firstEncounterOrder] using hkmem)
      with h1 | h2
    · simp at h1
    · obtain ⟨r, hr, hname⟩ := h2
      rw [← hname]
      exact h r hr
  have hnum : arrayIndexPairs (foldCatalogRows rows []) = [] := by
    rw [arrayIndexPairs, List.filterMap_eq_nil_iff]
    intro p hp
    rw [hknone p hp]
  have hfilter : ((foldCatalogRows rows []).filter fun p => (isArrayIndexKey p.1).isNone)
      = foldCatalogRows rows [] := by
    rw [List.filter_eq_self]
    intro p hp
    rw [hknone p hp]
    rfl
  have hnames : ∀ p ∈ foldCatalogRows rows [], Table.name p.2 = p.1 :=
    foldCatalogRows_names rows [] (by simp)
  rw [metadataTables, jsValues, hnum, hfilter]
  simp only [sortByIdx, List.map_nil, List.nil_append, List.map_map]
  rw [← hkeys]
  exact List.map_congr_left fun p hp => hnames p hp

theorem get?_map_local {β γ : Type} (f : β → γ) (l : List β) (i : Nat) :
    (l.map f).get? i = (l.get? i).map f := by
  induction l generalizing i with
  | nil => simp
  | cons x xs ih => cases i <;> simp [ih]

theorem resolveOnPreparedInput
    (superResolve : ResolutionContext α → String × RuntimeContext α)
    (ev : String → α) (t : Template) (psc0 : List α) :
    resolveActionConfigurationProperty superResolve ev (preparedResolutionContext t psc0) =
      resolvePreparedBody ev t { preparedStatementContext := psc0 } := by
  simp [resolveActionConfigurationProperty, preparedResolutionContext]

theorem getLast?_cons_cons_append_pair {β : Type} (a b x y : β) (l : List β) :
    (a :: b :: (l ++ [x, y])).getLast? = some y := by
  have h : a :: b :: (l ++ [x, y]) = (a :: b :: (l ++ [x])) ++ [y] := by simp
  rw [h, List.getLast?_concat]

theorem getLast?_cons_append_pair {β : Type} (a x y : β) (l : List β) :
    (a :: (l ++ [x, y])).getLast? = some y := by
  have h : a :: (l ++ [x, y]) = (a :: (l ++ [x])) ++ [y] := by simp
  rw [h, List.getLast?_concat]

theorem getLast?_append_pair {β : Type} (x y : β) (l : List β) :
    (l ++ [x, y]).getLast? = some y := by
  have h : l ++ [x, y] = (l ++ [x]) ++ [y] := by simp
  rw [h, List.getLast?_concat]

/-! Claim theorems. -/

/-- C1: running the Binding Resolver (`resolveActionConfigurationProperty`
with `usePreparedSql` set and property `body`) on a template with k
embedded-expression occurrences leaves the prepared statement context of
the runtime context as an ordered list of length k whose position i holds
the evaluated value of occurrence i (the occurrence assigned placeholder
`PARAM_(i+1)`), and generates exactly k placeholders: the counter started
at 1 ends at 1 + k, the assignment list has length k, and its entry i
pairs occurrence i with placeholder `PARAM_(i+1)`. -/
theorem claim1_resolver_k_placeholders_k_params
    (superResolve : ResolutionContext α → String × RuntimeContext α)
    (ev : String → α) (t : Template) (psc0 : List α) :
    (resolveActionConfigurationProperty superResolve ev
        (preparedResolutionContext t psc0)).2.preparedStatementContext =
      (extractMustacheStrings t).map ev ∧
    (resolveActionConfigurationProperty superResolve ev
        (preparedResolutionContext t psc0)).2.preparedStatementContext.length =
      (extractMustacheStrings t).length ∧
    (bindLoop ev (extractMustacheStrings t) (initialBindState α)).bindingCount =
      1 + (extractMustacheStrings t).length ∧
    (placeholderAssignmentsFrom 1 (extractMustacheStrings t)).length =
      (extractMustacheStrings t).length ∧
    (∀ i : Nat,
      (resolveActionConfigurationProperty superResolve ev
          (preparedResolutionContext t psc0)).2.preparedStatementContext.get? i =
        ((extractMustacheStrings t).get? i).map ev) ∧
    (∀ i : Nat,
      (placeholderAssignmentsFrom 1 (extractMustacheStrings t)).get? i =
        ((extractMustacheStrings t).get? i).map
          fun e => (e, "@PARAM_" ++ toString (i + 1))) := by
  refine ⟨?_, ?_, ?_, ?_, ?_, ?_⟩
  · rw [resolveOnPreparedInput, resolvePreparedBody_psc]
  · rw [resolveOnPreparedInput, resolvePreparedBody_psc]
    simp
  · rw [bindLoop_count]
    simp [initialBindState, Nat.add_comm]
  · exact placeholderAssignmentsFrom_length 1 _
  · intro i
    rw [resolveOnPreparedInput, resolvePreparedBody_psc]
    simp
  · intro i
    have h := placeholderAssignmentsFrom_get 1 (extractMustacheStrings t) i
    rw [Nat.add_comm 1 i] at h
    exact h

/-- C2 counterexample: on the template in which expression text `x` occurs
twice, the Binding Resolver renders BOTH occurrences as the placeholder of
the second occurrence, producing "@PARAM_2 @PARAM_2" and not the
"@PARAM_1 @PARAM_2" the claim requires, while still pushing one context
slot per occurrence. -/
theorem claim2_counterexample :
    (resolveActionConfigurationProperty (fun rc => ("", rc.context)) (fun e => e)
        (preparedResolutionContext dupTemplate [])).1 = "@PARAM_2 @PARAM_2" ∧
    (resolveActionConfigurationProperty (fun rc => ("", rc.context)) (fun e => e)
        (preparedResolutionContext dupTemplate [])).1 ≠ "@PARAM_1 @PARAM_2" ∧
    (resolveActionConfigurationProperty (fun rc => ("", rc.context)) (fun e => e)
        (preparedResolutionContext dupTemplate [])).2.preparedStatementContext =
      ["x", "x"] := by
  refine ⟨?_, ?_, ?_⟩ <;> decide

/-- C2 (amended): when the same expression text occurs more than once, each
occurrence still receives its own placeholder assignment (the counter is
incremented once per occurrence, entry i of the assignment list pairing
occurrence i with `PARAM_(i+1)`) and its own context slot (no
deduplication), but the rendered SQL replaces every occurrence of a given
expression text with the placeholder assigned to the LAST occurrence of
that text, because later map assignments overwrite earlier ones before
rendering. -/
theorem claim2_amended_shared_text_renders_last_placeholder
    (ev : String → α) (t : Template) (ctx : RuntimeContext α)
    (h : ∃ e, 1 < ((extractMustacheStrings t).count e)) :
    (resolvePreparedBody ev t ctx).2.preparedStatementContext =
      (extractMustacheStrings t).map ev ∧
    (bindLoop ev (extractMustacheStrings t) (initialBindState α)).bindingCount =
      1 + (extractMustacheStrings t).length ∧
    (∀ i : Nat,
      (placeholderAssignmentsFrom 1 (extractMustacheStrings t)).get? i =
        ((extractMustacheStrings t).get? i).map
          fun e => (e, "@PARAM_" ++ toString (i + 1))) ∧
    (bindLoop ev (extractMustacheStrings t) (initialBindState α)).bindingResolution =
      (placeholderAssignmentsFrom 1 (extractMustacheStrings t)).foldl
        (fun m p => mapSet m p.1 p.2) (fun _ => none) ∧
    (resolvePreparedBody ev t ctx).1 =
      renderValue t (lastAssigned 1 (extractMustacheStrings t)) := by
  refine ⟨resolvePreparedBody_psc ev t ctx, ?_, ?_, ?_, resolvePreparedBody_sql ev t ctx⟩
  · rw [bindLoop_count]
    simp [initialBindState, Nat.add_comm]
  · intro i
    have hg := placeholderAssignmentsFrom_get 1 (extractMustacheStrings t) i
    rw [Nat.add_comm 1 i] at hg
    exact hg
  · have hf := bindLoop_fold ev (extractMustacheStrings t) (initialBindState α)
    simpa [initialBindState] using hf

/-- C2 witness: the amended claim instantiated on the duplicate-occurrence
template. -/
theorem claim2_witness :
    1 < ((extractMustacheStrings dupTemplate).count "x") ∧
    (resolvePreparedBody (fun e => e) dupTemplate
        { preparedStatementContext := [] }).1 =
      renderValue dupTemplate (lastAssigned 1 (extractMustacheStrings dupTemplate)) := by
  refine ⟨by decide, ?_⟩
  exact (claim2_amended_shared_text_renders_last_placeholder (fun e => e) dupTemplate
    { preparedStatementContext := [] } ⟨"x", by decide⟩).2.2.2.2

/-- C7: the Binding Resolver resets the prepared statement context on every
call, so a second run on the same template and context yields a parameter
list equal to the first (of length k, the number of occurrences, not 2k),
whatever parameter list was already attached to the context. -/
theorem claim7_context_reset_between_runs
    (superResolve : ResolutionContext α → String × RuntimeContext α)
    (ev : String → α) (t : Template) (psc0 : List α) :
    (resolveActionConfigurationProperty superResolve ev
        (preparedResolutionContext t
          (resolveActionConfigurationProperty superResolve ev
              (preparedResolutionContext t psc0)).2.preparedStatementContext)
        ).2.preparedStatementContext =
      (resolveActionConfigurationProperty superResolve ev
          (preparedResolutionContext t psc0)).2.preparedStatementContext ∧
    (resolveActionConfigurationProperty superResolve ev
        (preparedResolutionContext t
          (resolveActionConfigurationProperty superResolve ev
              (preparedResolutionContext t psc0)).2.preparedStatementContext)
        ).2.preparedStatementContext.length =
      (extractMustacheStrings t).length := by
  constructor
  · rw [resolveOnPreparedInput, resolveOnPreparedInput,
      resolvePreparedBody_psc, resolvePreparedBody_psc]
  · rw [resolveOnPreparedInput, resolvePreparedBody_psc]
    simp

/-- C9: the prepared-binding path runs exactly when the action is marked
`usePreparedSql` and the resolved property is the query body; in every
other case the resolver delegates unchanged to the superclass resolution
path. -/
theorem claim9_prepared_path_dispatch
    (superResolve : ResolutionContext α → String × RuntimeContext α)
    (ev : String → α) (rc : ResolutionContext α) :
    (rc.actionConfiguration.usePreparedSql = true ∧ rc.property = "body" →
      resolveActionConfigurationProperty superResolve ev rc =
        resolvePreparedBody ev (rc.actionConfiguration.body.getD []) rc.context) ∧
    (rc.actionConfiguration.usePreparedSql = false ∨ rc.property ≠ "body" →
      resolveActionConfigurationProperty superResolve ev rc = superResolve rc) := by
  constructor
  · intro hcond
    rw [resolveActionConfigurationProperty, if_neg]
    push_neg
    exact ⟨by simp [hcond.1], hcond.2⟩
  · intro hcond
    rw [resolveActionConfigurationProperty, if_pos hcond]

/-- C9 witness: the dispatch at one input on the prepared path and one
input on the legacy path. -/
theorem claim9_witness :
    resolveActionConfigurationProperty (fun rc => ("legacy", rc.context))
        (fun (e : String) => e) (preparedResolutionContext dupTemplate []) =
      resolvePreparedBody (fun e => e) dupTemplate { preparedStatementContext := [] } ∧
    resolveActionConfigurationProperty (fun rc => ("legacy", rc.context))
        (fun (e : String) => e)
        { actionConfiguration := { usePreparedSql := false, body := some dupTemplate }
          property := "body"
          context := { preparedStatementContext := [] } } =
      ("legacy", { preparedStatementContext := [] }) := by
  constructor
  · exact (claim9_prepared_path_dispatch (fun rc => ("legacy", rc.context))
      (fun e => e) (preparedResolutionContext dupTemplate [])).1 ⟨rfl, rfl⟩
  · exact (claim9_prepared_path_dispatch (fun rc => ("legacy", rc.context))
      (fun e => e) _).2 (Or.inl rfl)

/-- C3 counterexample: a whitespace-only body (a single space) is NOT
short-circuited — the pooled execute creates a request and runs the query
against the connection and returns a non-empty output — and for an empty
body the legacy execute still acquires its connection before the emptiness
check. -/
theorem claim3_counterexample :
    (executePooled (fun rs => rs) dbOneRow (some " ") ([] : List Nat)).2 =
      [ConnEvent.request, ConnEvent.query " "] ∧
    (executePooled (fun rs => rs) dbOneRow (some " ") ([] : List Nat)).1 ≠
      Except.ok { output := none } ∧
    ConnEvent.acquire ∈
      (execute (fun rs => rs) (Except.ok ()) dbOneRow (some "") ([] : List Nat) true).2 := by
  refine ⟨by decide, ?_, by decide⟩
  intro hcontra
  rw [show (executePooled (fun rs => rs) dbOneRow (some " ") ([] : List Nat)).1 =
      Except.ok { output := some ["r"] } from rfl] at hcontra
  simp at hcontra

/-- C3 (amended): an empty (zero-length) or absent query body yields an
empty Execution Output with no request created and no query executed: the
pooled execute touches the connection not at all, while the legacy execute
still acquires and then releases its connection before returning.
Whitespace-only bodies are not short-circuited (lodash isEmpty is false on
a non-zero-length string). -/
theorem claim3_amended_empty_body_short_circuit
    (normalize : σ → σ) (db : String → Except String σ) (psc : List α)
    (body : Option String) (releaseOk : Bool)
    (h : body = none ∨ body = some "") :
    executePooled normalize db body psc = (Except.ok { output := none }, []) ∧
    execute normalize (Except.ok ()) db body psc releaseOk =
      (Except.ok { output := none },
       [ConnEvent.acquire, ConnEvent.release releaseOk]) := by
  rcases h with h | h <;> subst h <;> exact ⟨rfl, rfl⟩

/-- C3 witness: the amended claim at the empty-string body. -/
theorem claim3_witness :
    executePooled (fun rs : List String => rs) dbOneRow (some "") ([] : List Nat) =
      (Except.ok { output := none }, []) ∧
    execute (fun rs : List String => rs) (Except.ok ()) dbOneRow (some "")
        ([] : List Nat) true =
      (Except.ok { output := none },
       [ConnEvent.acquire, ConnEvent.release true]) := by
  exact claim3_amended_empty_body_short_circuit _ _ _ _ _ (Or.inr rfl)

/-- C4: `createConnection` validates endpoint, then authentication, then
database name, failing fast with a distinct configuration error message
that names the missing field and the plugin identity, and a validation
failure never reaches the connection attempt. -/
theorem claim4_connection_validation_order
    (dc : MsSqlDatasourceConfiguration) (tmo : Nat) :
    (dc.endpoint = none →
      createConnection dc tmo =
        ConnectionAttempt.configError "Endpoint not specified for Microsoft SQL step") ∧
    (dc.endpoint ≠ none → dc.authentication = none →
      createConnection dc tmo =
        ConnectionAttempt.configError "Authentication not specified for Microsoft SQL step") ∧
    (∀ a, dc.endpoint ≠ none → dc.authentication = some a → databaseNameValue a = none →
      createConnection dc tmo =
        ConnectionAttempt.configError "Database not specified for Microsoft SQL step") ∧
    (("Endpoint not specified for Microsoft SQL step" : String) ≠
        "Authentication not specified for Microsoft SQL step" ∧
      ("Authentication not specified for Microsoft SQL step" : String) ≠
        "Database not specified for Microsoft SQL step" ∧
      ("Endpoint not specified for Microsoft SQL step" : String) ≠
        "Database not specified for Microsoft SQL step") ∧
    (∀ msg cfg, createConnection dc tmo = ConnectionAttempt.configError msg →
      createConnection dc tmo ≠ ConnectionAttempt.connectAttempt cfg) := by
  obtain ⟨e, a, c⟩ := dc
  refine ⟨?_, ?_, ?_, ⟨by decide, by decide, by decide⟩, ?_⟩
  · intro hE
    subst hE
    rfl
  · intro hE hA
    subst hA
    cases e with
    | none => exact absurd rfl hE
    | some ep => rfl
  · intro a2 hE hA hD
    subst hA
    cases e with
    | none => exact absurd rfl hE
    | some ep =>
      simp only [createConnection, hD]
      rfl
  · intro msg cfg h1 h2
    rw [h1] at h2
    simp at h2

/-- C4 witness: the three violations at concrete configurations (the third
with an empty-string database name). -/
theorem claim4_witness :
    createConnection
        { endpoint := none, authentication := none, connection := none } 30000 =
      ConnectionAttempt.configError "Endpoint not specified for Microsoft SQL step" ∧
    createConnection
        { endpoint := some { host := some "h", port := some 1433 }
          authentication := none
          connection := none } 30000 =
      ConnectionAttempt.configError "Authentication not specified for Microsoft SQL step" ∧
    createConnection
        { endpoint := some { host := some "h", port := some 1433 }
          authentication := some
            { username := some "u", password := some "p"
              custom := some { databaseName := some { value := some "" } } }
          connection := none } 30000 =
      ConnectionAttempt.configError "Database not specified for Microsoft SQL step" := by
  refine ⟨(claim4_connection_validation_order _ 30000).1 rfl,
    (claim4_connection_validation_order _ 30000).2.1 (by simp) rfl,
    (claim4_connection_validation_order _ 30000).2.2.1 _ (by simp) rfl rfl⟩

/-- C5: for a non-empty body and a non-empty parameter list of length N,
the pooled execute creates one request, binds value i to named slot
`PARAM_(i+1)` for positions i = 0..N-1 in order, and then executes the SQL
text as one batch; the slot numbering coincides with the placeholder
numbering the Binding Resolver produced (slot i receives the value of
occurrence i, the occurrence assigned `PARAM_(i+1)`). -/
theorem claim5_binding_matches_placeholders
    (normalize : σ → σ) (db : String → Except String σ) (q : String) (psc : List α)
    (hq : q.isEmpty = false) (hpsc : psc ≠ []) :
    (executePooled normalize db (some q) psc).2 =
      ConnEvent.request :: bindInputs psc 1 ++ [ConnEvent.query q] ∧
    (bindInputs psc 1).length = psc.length ∧
    (∀ i : Nat, (bindInputs psc 1).get? i =
      (psc.get? i).map fun v => ConnEvent.input ("PARAM_" ++ toString (i + 1)) v) ∧
    (∀ (t : Template) (ev : String → α) (i : Nat),
      (bindInputs
          ((resolvePreparedBody ev t
              { preparedStatementContext := [] }).2.preparedStatementContext) 1).get? i =
        ((extractMustacheStrings t).get? i).map
          (fun e => ConnEvent.input ("PARAM_" ++ toString (i + 1)) (ev e)) ∧
      (placeholderAssignmentsFrom 1 (extractMustacheStrings t)).get? i =
        ((extractMustacheStrings t).get? i).map
          fun e => (e, "@PARAM_" ++ toString (i + 1))) := by
  refine ⟨?_, bindInputs_length psc 1, ?_, ?_⟩
  · cases hdb : db q <;> simp [executePooled, hq, hdb]
  · intro i
    have hb := bindInputs_get psc 1 i
    rw [Nat.add_comm 1 i] at hb
    exact hb
  · intro t ev i
    constructor
    · rw [resolvePreparedBody_psc]
      have hb := bindInputs_get ((extractMustacheStrings t).map ev) 1 i
      rw [Nat.add_comm 1 i] at hb
      rw [hb, get?_map_local]
      cases hoc : (extractMustacheStrings t).get? i <;> simp [hoc]
    · have hg := placeholderAssignmentsFrom_get 1 (extractMustacheStrings t) i
      rw [Nat.add_comm 1 i] at hg
      exact hg

/-- C5 witness: the binding trace at a concrete one-parameter execution. -/
theorem claim5_witness :
    (executePooled (fun rs : List String => rs) dbOneRow
        (some "select 1") [(5 : Nat)]).2 =
      ConnEvent.request :: bindInputs [(5 : Nat)] 1 ++ [ConnEvent.query "select 1"] := by
  exact (claim5_binding_matches_placeholders _ _ _ _ (by decide) (by decide)).1

/-- C6: the metadata fold groups the flat catalog rows by table name — a
table appears in the map exactly when some row carries its name, and its
column list is the list of the (column name, data type) pairs of the rows
of that table in stream order — and on the example rows it yields exactly
the two expected tables with their columns in order. -/
theorem claim6_schema_fold_and_example (rows : List CatalogRow) (tn : String) :
    (jsGet (foldCatalogRows rows []) tn =
      if rows.any (fun r => r.table_name = tn) then
        some { name := tn, ttype := TableType.table, columns := columnsOf rows tn }
      else none) ∧
    metadataTables usersOrdersRows =
      [{ name := "Users", ttype := TableType.table,
         columns := [{ name := "id", dataType := "int" },
                     { name := "name", dataType := "varchar" }] },
       { name := "Orders", ttype := TableType.table,
         columns := [{ name := "id", dataType := "int" }] }] := by
  constructor
  · rw [foldCatalogRows_get]
    rfl
  · decide

/-- C8: once a connection is acquired, each of execute, metadata and test
releases it on every exit path (the release event is the last connection
activity, on the success and the error path alike), and the result of the
operation does not depend on whether that release succeeded. -/
theorem claim8_release_on_all_paths
    (normalize : σ → σ) (db : String → Except String σ) (body : Option String)
    (psc : List α) (dbMeta : Except String (List CatalogRow))
    (dbTest : Except String Unit) (releaseOk : Bool) :
    ((execute normalize (Except.ok ()) db body psc releaseOk).2.getLast? =
        some (ConnEvent.release releaseOk) ∧
      (execute normalize (Except.ok ()) db body psc releaseOk).1 =
        (execute normalize (Except.ok ()) db body psc true).1) ∧
    ((metadataOp (Except.ok ()) dbMeta releaseOk).2.getLast? =
        some (ConnEvent.release releaseOk) ∧
      (metadataOp (Except.ok ()) dbMeta releaseOk).1 =
        (metadataOp (Except.ok ()) dbMeta true).1) ∧
    ((testOp (Except.ok ()) dbTest releaseOk).2.getLast? =
        some (ConnEvent.release releaseOk) ∧
      (testOp (Except.ok ()) dbTest releaseOk).1 =
        (testOp (Except.ok ()) dbTest true).1) := by
  refine ⟨⟨?_, ?_⟩, ⟨?_, ?_⟩, ⟨?_, ?_⟩⟩
  · cases body with
    | none => rfl
    | some q =>
      by_cases hq : q.isEmpty
      · simp [execute, hq]
      · cases hdb : db q <;>
          simp [execute, hq, hdb, getLast?_cons_cons_append_pair,
            getLast?_cons_append_pair, getLast?_append_pair]
  · cases body with
    | none => rfl
    | some q =>
      by_cases hq : q.isEmpty
      · simp [execute, hq]
      · cases hdb : db q <;> simp [execute, hq, hdb]
  · cases dbMeta <;> rfl
  · cases dbMeta <;> rfl
  · cases dbTest <;> rfl
  · cases dbTest <;> rfl

/-- C10 counterexample: with a table named "0" (an array-index property
key), Object.values enumerates it before a previously inserted table, so
the output order is not first-encounter order. -/
theorem claim10_counterexample :
    (metadataTables numericNameRows).map Table.name = ["0", "Users"] ∧
    firstEncounterOrder numericNameRows = ["Users", "0"] ∧
    (metadataTables numericNameRows).map Table.name ≠
      firstEncounterOrder numericNameRows := by
  refine ⟨?_, ?_, ?_⟩ <;> decide

/-- C10 (amended): tables whose names are array-index property keys
(canonical decimal integers below 2^32 - 1) are enumerated first in
ascending numeric order; when no table name is such a key — in particular
for ordinary identifier-like names — the metadata output lists tables in
the order their names are first encountered in the catalog row stream. -/
theorem claim10_amended_insertion_order_unless_numeric
    (rows : List CatalogRow)
    (h : ∀ r ∈ rows, isArrayIndexKey r.table_name = none) :
    (metadataTables rows).map Table.name = firstEncounterOrder rows :=
  metadataTables_no_numeric_keys rows h

/-- C10 witness: the amended claim on the example rows, none of whose
table names is an array-index key. -/
theorem claim10_witness :
    (metadataTables usersOrdersRows).map Table.name =
      firstEncounterOrder usersOrdersRows := by
  exact claim10_amended_insertion_order_unless_numeric usersOrdersRows (by decide)

end MsSql
